import Mathlib

/-!
Verification development for the direct-lending graph visualization API
(`src/main.py`).  The graph-to-visualization projection layer is embedded
shallowly: Neo4j nodes/relationships become Lean structures, the Python
dict-based accumulators become association lists preserving insertion
order (Python dicts preserve insertion order), Python sets become lists
with membership-guarded insertion, and the Cypher queries issued by the
endpoints are given operational semantics over an explicit graph value.
-/

namespace GraphVis

/-! ## Graph data model

A Neo4j node carries a set of labels (the code always reads the first
label of `node.labels`), a node identity (Neo4j element id, used by
Cypher `<>` comparison on nodes), and a property map.  Property values
are modeled by their rendered string form, which is all the projection
layer ever uses of them. -/

structure GNode where
  nid : Nat
  labels : List String
  props : List (String × String)
  deriving DecidableEq

/-- Python `node["name"]`.  A node without a `name` property
would raise in Python; the seeded data always has one, and the default
is never load-bearing in the theorems below. -/
def GNode.name (n : GNode) : String := (n.props.lookup "name").getD ""

/-- Python `list(node.labels)[0]` in `_build_vis_node` / `get_node`. -/
def GNode.label (n : GNode) : String := n.labels.headD ""

def GNode.hasLabel (n : GNode) (lab : String) : Bool := n.labels.contains lab

structure GRel where
  type : String
  props : List (String × String)
  deriving DecidableEq

/-- A relationship instance in the database: payload plus endpoint node ids. -/
structure GRelTriple where
  rel : GRel
  src : Nat
  dst : Nat
  deriving DecidableEq

structure Graph where
  nodes : List GNode
  rels : List GRelTriple
  deriving DecidableEq

def findNode (g : Graph) (i : Nat) : Option GNode := g.nodes.find? (fun n => n.nid == i)

/-! ## Style resolver (`STYLE`, `DEFAULT_STYLE` in `main.py`) -/

structure Style where
  color : String
  shape : String
  size : Nat
  deriving DecidableEq

def STYLE : List (String × Style) :=
  [("Borrower", ⟨"#4A90D9", "dot", 25⟩),
   ("Lender", ⟨"#5CB85C", "diamond", 25⟩),
   ("Deal", ⟨"#F0AD4E", "square", 20⟩),
   ("Sector", ⟨"#9B59B6", "triangle", 20⟩)]

def DEFAULT_STYLE : Style := ⟨"#999", "dot", 15⟩

/-- Python `STYLE.get(label, DEFAULT_STYLE)` in `_build_vis_node`. -/
def styleFor (label : String) : Style := (STYLE.lookup label).getD DEFAULT_STYLE

/-! ## Identity scheme and projectors -/

/-- Python `_node_id` in `main.py`: `f"{label}:{name}"`. -/
def node_id (label name : String) : String := label ++ ":" ++ name

/-- The vis.js node dict produced by `_build_vis_node`.  Fading
(`get_entity_graph`) later rewrites `size`, wraps `color` into a
`{"background": ..., "opacity": 0.45}` pair, and adds a `font` entry. -/
inductive VisColor where
  /-- a plain color string -/
  | plain (c : String)
  /-- the pair `{"background": b, "opacity": 0.45}`; the opacity is recorded in
  hundredths (45 stands for 0.45). -/
  | faded (background : VisColor) (opacityCenti : Nat)
  deriving DecidableEq

structure NodeFont where
  color : String
  deriving DecidableEq

structure VisNode where
  id : String
  label : String
  group : String
  title : String
  color : VisColor
  shape : String
  size : Nat
  font : Option NodeFont
  deriving DecidableEq

/-- Python `_build_vis_node`: convert a Neo4j node to a vis.js node dict. -/
def build_vis_node (node : GNode) : String × VisNode :=
  let label := node.label
  let name := node.name
  let nid := node_id label name
  let style := styleFor label
  let title_lines := ("<b>" ++ label ++ ": " ++ name ++ "</b>") ::
    ((node.props.filter (fun kv => kv.1 ≠ "name")).map (fun kv => kv.1 ++ ": " ++ kv.2))
  (nid,
   { id := nid, label := name, group := label,
     title := String.intercalate "<br>" title_lines,
     color := .plain style.color, shape := style.shape, size := style.size,
     font := none })

/-- Python `rel_type.replace("_", " ")` in `_build_vis_edge`.  For the
single-character pattern `"_"`, the Python `str.replace` is exactly a
character-wise substitution. -/
def underscoreToSpace (s : String) : String :=
  ⟨s.data.map (fun c => if c == '_' then ' ' else c)⟩

structure EdgeFont where
  size : Nat
  align : String
  deriving DecidableEq

structure VisEdge where
  fromId : String
  toId : String
  label : String
  title : String
  arrows : String
  font : EdgeFont
  deriving DecidableEq

/-- Python `_build_vis_edge`: convert a Neo4j relationship to a vis.js edge dict. -/
def build_vis_edge (rel : GRel) (from_id to_id : String) : VisEdge :=
  let rel_type := rel.type
  let edge_label :=
    match rel.props.lookup "commitment_mm" with
    | some v => underscoreToSpace rel_type ++ "\n$" ++ v ++ "MM"
    | none => underscoreToSpace rel_type
  let title_lines := ("<b>" ++ rel_type ++ "</b>") ::
    (rel.props.map (fun kv => kv.1 ++ ": " ++ kv.2))
  { fromId := from_id, toId := to_id, label := edge_label,
    title := String.intercalate "<br>" title_lines,
    arrows := "to", font := ⟨10, "middle"⟩ }

/-! ## Deduplicating assembler primitives (`_ensure_node`, `_add_edge`) -/

/-- Python `set.add` on an insertion-ordered list model of a set. -/
def setInsert (s : List String) (x : String) : List String :=
  if x ∈ s then s else s ++ [x]

/-- Python `_ensure_node`: add a node to `nodes_map` if not already present;
return the node id.  If `inner_ids` is provided, the node id is also
added to that set. -/
def ensure_node (node : GNode) (nodes_map : List (String × VisNode))
    (inner_ids : Option (List String)) :
    String × List (String × VisNode) × Option (List String) :=
  let p := build_vis_node node
  let inner2 := inner_ids.map (fun s => setInsert s p.1)
  if (nodes_map.lookup p.1).isSome then (p.1, nodes_map, inner2)
  else (p.1, nodes_map ++ [p], inner2)

abbrev EdgeKey := String × String × String

/-- Python `_add_edge`: add an edge if its `(from_id, rel.type, to_id)` key is
not already in `edge_set`.  The Python code keeps the `edges` list and
the `edge_set` set separately and pushes to both under the same guard;
here each appended edge is paired with the key it was deduplicated by,
and the response edge list is the second projection. -/
def add_edge (rel : GRel) (from_id to_id : String)
    (edges : List (EdgeKey × VisEdge)) (edge_set : List EdgeKey) :
    List (EdgeKey × VisEdge) × List EdgeKey :=
  let edge_key : EdgeKey := (from_id, rel.type, to_id)
  if edge_key ∈ edge_set then (edges, edge_set)
  else (edges ++ [(edge_key, build_vis_edge rel from_id to_id)], edge_set ++ [edge_key])

/-! ## Cypher row semantics

The endpoints issue one Cypher query each and iterate the returned
records.  `optRows` is the semantics of `OPTIONAL MATCH` relative to an
already-bound row: if the pattern has no match the row is extended with
nulls, otherwise one row per match. -/

def optRows {α β : Type} (ms : List α) (k : Option α → List β) : List β :=
  match ms with
  | [] => k none
  | _ => ms.flatMap (fun m => k (some m))

/-- Matches of `MATCH (f:lab {name: $name})-[r:relType]->(d:Deal)`. -/
def focalMatches (g : Graph) (name lab relType : String) : List (GNode × GRel × GNode) :=
  g.rels.filterMap fun t =>
    match findNode g t.src, findNode g t.dst with
    | some f, some d =>
      if t.rel.type == relType && f.hasLabel lab && f.name == name && d.hasLabel "Deal"
      then some (f, t.rel, d) else none
    | _, _ => none

/-- Matches of `(p:lab)-[r:relType]->(node dIdx)`: the participants on a
given deal. -/
def participantsInto (g : Graph) (dIdx : Nat) (lab relType : String) : List (GNode × GRel) :=
  g.rels.filterMap fun t =>
    if t.dst == dIdx && t.rel.type == relType then
      match findNode g t.src with
      | some p => if p.hasLabel lab then some (p, t.rel) else none
      | none => none
    else none

/-- Matches of `(node pIdx)-[r:relType]->(d2:Deal) WHERE d2 <> d`:
the "other deals" hop.  Note that `d2 <> d` (Cypher node identity)
compares against the one deal `d` bound in the current row only. -/
def otherDealsOf (g : Graph) (pIdx dIdx : Nat) (relType : String) : List (GRel × GNode) :=
  g.rels.filterMap fun t =>
    if t.src == pIdx && t.rel.type == relType then
      match findNode g t.dst with
      | some d2 => if d2.hasLabel "Deal" && !(d2.nid == dIdx) then some (t.rel, d2) else none
      | none => none
    else none

/-- One record of the ego-network query of `get_entity_graph`.  Both the
Borrower and the Lender query RETURN the keys `b, r1, d, l, r2, d2, r4,
b2|l2, r5`; `record.get(key)` on an absent key yields `None`, so a
single record shape with all keys optional covers both queries. -/
structure EgoRecord where
  b  : Option GNode
  r1 : Option GRel
  d  : Option GNode
  l  : Option GNode
  r2 : Option GRel
  d2 : Option GNode
  r4 : Option GRel
  b2 : Option GNode
  l2 : Option GNode
  r5 : Option GRel
  deriving DecidableEq

/-- Rows of the Borrower-focused ego query:
`MATCH (b:Borrower {name: $name})-[r1:BORROWED]->(d:Deal)`
`OPTIONAL MATCH (l:Lender)-[r2:LENT_TO]->(d)`
`OPTIONAL MATCH (l)-[r4:LENT_TO]->(d2:Deal) WHERE d2 <> d`
`OPTIONAL MATCH (b2:Borrower)-[r5:BORROWED]->(d2)`.
When `l` is null the two following optional matches cannot bind and
yield nulls; likewise for `d2` and the last optional match. -/
def borrowerRows (g : Graph) (name : String) : List EgoRecord :=
  (focalMatches g name "Borrower" "BORROWED").flatMap fun bm =>
    optRows (participantsInto g bm.2.2.nid "Lender" "LENT_TO") fun m2 =>
      match m2 with
      | none =>
        [⟨some bm.1, some bm.2.1, some bm.2.2, none, none, none, none, none, none, none⟩]
      | some (l, r2) =>
        optRows (otherDealsOf g l.nid bm.2.2.nid "LENT_TO") fun m4 =>
          match m4 with
          | none =>
            [⟨some bm.1, some bm.2.1, some bm.2.2, some l, some r2, none, none, none, none, none⟩]
          | some (r4, d2) =>
            optRows (participantsInto g d2.nid "Borrower" "BORROWED") fun m5 =>
              match m5 with
              | none =>
                [⟨some bm.1, some bm.2.1, some bm.2.2, some l, some r2,
                  some d2, some r4, none, none, none⟩]
              | some (b2, r5) =>
                [⟨some bm.1, some bm.2.1, some bm.2.2, some l, some r2,
                  some d2, some r4, some b2, none, some r5⟩]

/-- Rows of the Lender-focused ego query:
`MATCH (l:Lender {name: $name})-[r2:LENT_TO]->(d:Deal)`
`OPTIONAL MATCH (b:Borrower)-[r1:BORROWED]->(d)`
`OPTIONAL MATCH (b)-[r4:BORROWED]->(d2:Deal) WHERE d2 <> d`
`OPTIONAL MATCH (l2:Lender)-[r5:LENT_TO]->(d2)`. -/
def lenderRows (g : Graph) (name : String) : List EgoRecord :=
  (focalMatches g name "Lender" "LENT_TO").flatMap fun lm =>
    optRows (participantsInto g lm.2.2.nid "Borrower" "BORROWED") fun m1 =>
      match m1 with
      | none =>
        [⟨none, none, some lm.2.2, some lm.1, some lm.2.1, none, none, none, none, none⟩]
      | some (b, r1) =>
        optRows (otherDealsOf g b.nid lm.2.2.nid "BORROWED") fun m4 =>
          match m4 with
          | none =>
            [⟨some b, some r1, some lm.2.2, some lm.1, some lm.2.1, none, none, none, none, none⟩]
          | some (r4, d2) =>
            optRows (participantsInto g d2.nid "Lender" "LENT_TO") fun m5 =>
              match m5 with
              | none =>
                [⟨some b, some r1, some lm.2.2, some lm.1, some lm.2.1,
                  some d2, some r4, none, none, none⟩]
              | some (l2, r5) =>
                [⟨some b, some r1, some lm.2.2, some lm.1, some lm.2.1,
                  some d2, some r4, none, some l2, some r5⟩]

/-! ## Ego assembly (`get_entity_graph` record loop) -/

structure EgoState where
  nodesMap : List (String × VisNode)
  edges : List (EdgeKey × VisEdge)
  edgeSet : List EdgeKey
  innerIds : List String
  deriving DecidableEq

/-- Python `record["x"]["name"]` on an optional record entry.  The Python code
only dereferences entries it has guarded (or that the query binds
together with the guarded one), so the default is never reached on rows
the queries produce. -/
def optName (o : Option GNode) : String := (o.map GNode.name).getD ""

/-- the inner-keys loop body: `_ensure_node(node, nodes_map, inner_ids)`. -/
def ensureInner (st : EgoState) (node : Option GNode) : EgoState :=
  match node with
  | none => st
  | some n =>
    let r := ensure_node n st.nodesMap (some st.innerIds)
    { st with nodesMap := r.2.1, innerIds := r.2.2.getD st.innerIds }

/-- the outer-keys loop body: `_ensure_node(node, nodes_map)`. -/
def ensureOuter (st : EgoState) (node : Option GNode) : EgoState :=
  match node with
  | none => st
  | some n =>
    let r := ensure_node n st.nodesMap none
    { st with nodesMap := r.2.1 }

def addEdgeSt (st : EgoState) (rel : GRel) (fid tid : String) : EgoState :=
  let r := add_edge rel fid tid st.edges st.edgeSet
  { st with edges := r.1, edgeSet := r.2 }

/-- the loop `for node_key in inner_keys: ...` — inner keys are `("b", "d", "l")`
for both queries. -/
def processInner (st : EgoState) (r : EgoRecord) : EgoState :=
  ensureInner (ensureInner (ensureInner st r.b) r.d) r.l

/-- the loop `for node_key in outer_keys: ...` — outer keys are `("d2", "b2")`
for a Borrower focus and `("d2", "l2")` for a Lender focus. -/
def processOuterNodes (isBorrower : Bool) (st : EgoState) (r : EgoRecord) : EgoState :=
  ensureOuter (ensureOuter st r.d2) (if isBorrower then r.b2 else r.l2)

/-- the block `if record.get("r1") is not None:` — the borrower→deal edge block. -/
def edgeStepR1 (st : EgoState) (r : EgoRecord) : EgoState :=
  match r.r1 with
  | none => st
  | some rel =>
    addEdgeSt st rel (node_id "Borrower" (optName r.b)) (node_id "Deal" (optName r.d))

/-- the block `if record.get("r2") is not None:` — the lender→deal edge block. -/
def edgeStepR2 (st : EgoState) (r : EgoRecord) : EgoState :=
  match r.r2 with
  | none => st
  | some rel =>
    addEdgeSt st rel (node_id "Lender" (optName r.l)) (node_id "Deal" (optName r.d))

/-- the block `if record.get("r4") is not None and record.get("d2") is not None:`
— the outer-hop counterpart→deal2 edge block. -/
def edgeStepR4 (isBorrower : Bool) (st : EgoState) (r : EgoRecord) : EgoState :=
  match r.r4, r.d2 with
  | some rel, some d2 =>
    let from_id :=
      if isBorrower then node_id "Lender" (optName r.l)
      else node_id "Borrower" (optName r.b)
    addEdgeSt st rel from_id (node_id "Deal" d2.name)
  | _, _ => st

/-- the block `if record.get("r5") is not None and record.get("d2") is not None:`
— the second-order participant→deal2 edge block. -/
def edgeStepR5 (isBorrower : Bool) (st : EgoState) (r : EgoRecord) : EgoState :=
  match r.r5, r.d2 with
  | some rel, some d2 =>
    let outer_label := if isBorrower then "Borrower" else "Lender"
    match (if isBorrower then r.b2 else r.l2) with
    | some onode =>
      addEdgeSt st rel (node_id outer_label onode.name) (node_id "Deal" d2.name)
    | none => st
  | _, _ => st

/-- The four edge blocks of the record loop of `get_entity_graph`. -/
def processEdges (isBorrower : Bool) (st : EgoState) (r : EgoRecord) : EgoState :=
  edgeStepR5 isBorrower (edgeStepR4 isBorrower (edgeStepR2 (edgeStepR1 st r) r) r) r

def processEgoRecord (isBorrower : Bool) (st : EgoState) (r : EgoRecord) : EgoState :=
  processEdges isBorrower (processOuterNodes isBorrower (processInner st r) r) r

def egoFold (isBorrower : Bool) (records : List EgoRecord) : EgoState :=
  records.foldl (processEgoRecord isBorrower) ⟨[], [], [], []⟩

/-- The fading of one node dict: `size = int(size * 0.6)`,
`color = {"background": color, "opacity": 0.45}`,
`font = {"color": "#707090"}`.  For every size the style resolver
produces (15, 20, 25) the Python `int(size * 0.6)` equals `size * 6 / 10`
in natural-number arithmetic (9, 12, 15). -/
def fadeNode (v : VisNode) : VisNode :=
  { v with size := v.size * 6 / 10,
           color := VisColor.faded v.color 45,
           font := some ⟨"#707090"⟩ }

/-- the loop `for nid, node_data in nodes_map.items(): if nid not in inner_ids: ...` -/
def fadePass (nodesMap : List (String × VisNode)) (innerIds : List String) :
    List (String × VisNode) :=
  nodesMap.map fun p => if p.1 ∈ innerIds then p else (p.1, fadeNode p.2)

structure GraphPayload where
  nodes : List VisNode
  edges : List VisEdge
  deriving DecidableEq

def assembleEgo (isBorrower : Bool) (records : List EgoRecord) : GraphPayload :=
  let st := egoFold isBorrower records
  { nodes := (fadePass st.nodesMap st.innerIds).map Prod.snd,
    edges := st.edges.map Prod.snd }

inductive ApiError where
  | badRequest (detail : String)
  | notFound (detail : String)
  deriving DecidableEq

/-- endpoint `GET /api/graph/{label}/{name}` (`get_entity_graph`): 400 before any
query when the label is neither Borrower nor Lender; the query; 404 when
it returns no records; otherwise the assembled, faded payload. -/
def get_entity_graph (g : Graph) (label name : String) :
    Except ApiError GraphPayload :=
  if label == "Borrower" then
    let records := borrowerRows g name
    if records.isEmpty then
      .error (.notFound ("Borrower \x27" ++ name ++ "\x27 not found"))
    else .ok (assembleEgo true records)
  else if label == "Lender" then
    let records := lenderRows g name
    if records.isEmpty then
      .error (.notFound ("Lender \x27" ++ name ++ "\x27 not found"))
    else .ok (assembleEgo false records)
  else .error (.badRequest "Label must be Borrower or Lender")

/-! ## Whole-graph view (`get_graph`) and node detail (`get_node`) -/

/-- A record of `MATCH (n) OPTIONAL MATCH (n)-[r]->(m) RETURN n, r, m`
(`get_graph`), and also of the undirected variant used by `get_node`. -/
structure RowNRM where
  n : GNode
  r : Option GRel
  m : Option GNode
  deriving DecidableEq

structure WholeState where
  nodesMap : List (String × VisNode)
  edges : List VisEdge
  deriving DecidableEq

/-- One iteration of the record loop of `get_graph`.  Note: edges are
appended directly, with no `edge_set` deduplication. -/
def processWholeRow (st : WholeState) (row : RowNRM) : WholeState :=
  let e1 := ensure_node row.n st.nodesMap none
  match row.r, row.m with
  | some rel, some target =>
    let e2 := ensure_node target e1.2.1 none
    { nodesMap := e2.2.1, edges := st.edges ++ [build_vis_edge rel e1.1 e2.1] }
  | _, _ => { nodesMap := e1.2.1, edges := st.edges }

def assembleWhole (records : List RowNRM) : WholeState :=
  records.foldl processWholeRow ⟨[], []⟩

/-- Matches of `(n)-[r]->(m)` from a fixed node. -/
def outMatches (g : Graph) (nIdx : Nat) : List (GRel × GNode) :=
  g.rels.filterMap fun t =>
    if t.src == nIdx then
      match findNode g t.dst with
      | some m => some (t.rel, m)
      | none => none
    else none

/-- Rows of `MATCH (n) OPTIONAL MATCH (n)-[r]->(m) RETURN n, r, m`. -/
def wholeGraphRows (g : Graph) : List RowNRM :=
  g.nodes.flatMap fun n =>
    optRows (outMatches g n.nid) fun mm =>
      match mm with
      | none => [⟨n, none, none⟩]
      | some (rel, m) => [⟨n, some rel, some m⟩]

/-- endpoint `GET /api/graph` (`get_graph`). -/
def get_graph (g : Graph) : GraphPayload :=
  let st := assembleWhole (wholeGraphRows g)
  { nodes := st.nodesMap.map Prod.snd, edges := st.edges }

structure Connection where
  relationship : String
  relationship_props : List (String × String)
  node_label : String
  node_name : String
  node_props : List (String × String)
  deriving DecidableEq

structure NodePayload where
  label : String
  name : String
  properties : List (String × String)
  connections : List Connection
  deriving DecidableEq

/-- The deduplication key of the connections loop of `get_node`:
`(rel.type, o_label, o_name)`. -/
def connKey (c : Connection) : String × String × String :=
  (c.relationship, c.node_label, c.node_name)

/-- The connections loop of `get_node`: skip rows with a null
relationship or neighbor, and skip keys already in `seen`. -/
def connStep (acc : List Connection × List (String × String × String)) (row : RowNRM) :
    List Connection × List (String × String × String) :=
  match row.r, row.m with
  | some rel, some other =>
    let key := (rel.type, other.label, other.name)
    if key ∈ acc.2 then acc
    else (acc.1 ++ [⟨rel.type, rel.props, other.label, other.name, other.props⟩],
          acc.2 ++ [key])
  | _, _ => acc

def connectionsOf (records : List RowNRM) : List Connection :=
  (records.foldl connStep ([], [])).1

/-- endpoint `GET /api/node/{label}/{name}` (`get_node`): 404 on an empty record
set, else the node properties of the first record plus deduplicated
connections. -/
def get_node (label name : String) (records : List RowNRM) :
    Except ApiError NodePayload :=
  match records with
  | [] => .error (.notFound (label ++ " \x27" ++ name ++ "\x27 not found"))
  | r0 :: _ =>
    .ok { label := label, name := name, properties := r0.n.props,
          connections := connectionsOf records }

/-! ## Derived notions used to state the claims -/

/-- The NodeId `_build_vis_node` computes for a node. -/
def visId (n : GNode) : String := (build_vis_node n).1

/-- The nodes of one `get_graph` record, in the order the record loop
ensures them: the subject, then (only when both the relationship and the
object are present) the object. -/
def rowNodes (row : RowNRM) : List GNode :=
  row.n :: (match row.r, row.m with
            | some _, some m => [m]
            | _, _ => [])

def encounterNodes (records : List RowNRM) : List GNode := records.flatMap rowNodes

/-- The nodes of one ego record in ensure order:
inner keys `b, d, l`, then outer keys `d2, b2|l2`. -/
def recordNodes (isBorrower : Bool) (r : EgoRecord) : List GNode :=
  r.b.toList ++ r.d.toList ++ r.l.toList ++ r.d2.toList ++
    (if isBorrower then r.b2 else r.l2).toList

/-- The nodes appearing under the inner-tier keys `b, d, l` of a record. -/
def innerNodes (r : EgoRecord) : List GNode :=
  r.b.toList ++ r.d.toList ++ r.l.toList

/-- Folding `_ensure_node` (without an inner set) over a node sequence. -/
def ensureList (m : List (String × VisNode)) (ns : List GNode) : List (String × VisNode) :=
  ns.foldl (fun acc n => (ensure_node n acc none).2.1) m

/-- Set-model insertion of a sequence of ids. -/
def insertIds (seen : List String) : List String → List String
  | [] => seen
  | i :: rest => insertIds (setInsert seen i) rest

/-- The subsequence of ids that are new relative to `seen`, keeping the
first occurrence of each id. -/
def firstSeenIds (seen : List String) : List String → List String
  | [] => []
  | i :: rest =>
    if i ∈ seen then firstSeenIds seen rest
    else i :: firstSeenIds (seen ++ [i]) rest

/-! ## Helper lemmas: set model -/

theorem mem_setInsert (s : List String) (x y : String) :
    y ∈ setInsert s x ↔ y ∈ s ∨ y = x := by
  unfold setInsert
  split
  · constructor
    · exact Or.inl
    · rintro (h | rfl)
      · exact h
      · assumption
  · simp

theorem self_mem_setInsert (s : List String) (x : String) : x ∈ setInsert s x :=
  (mem_setInsert s x x).mpr (Or.inr rfl)

theorem subset_setInsert (s : List String) (x : String) : s ⊆ setInsert s x :=
  fun _ hy => (mem_setInsert s x _).mpr (Or.inl hy)

theorem setInsert_nodup (s : List String) (x : String) (h : s.Nodup) :
    (setInsert s x).Nodup := by
  unfold setInsert
  split
  · exact h
  · exact List.nodup_append.mpr ⟨h, List.nodup_singleton x,
      fun a ha hax => ‹x ∉ s› ((List.mem_singleton.mp hax) ▸ ha)⟩

theorem mem_insertIds (ids : List String) (seen : List String) (x : String) :
    x ∈ insertIds seen ids ↔ x ∈ seen ∨ x ∈ ids := by
  induction ids generalizing seen with
  | nil => simp [insertIds]
  | cons i rest ih =>
    simp only [insertIds, ih, mem_setInsert, List.mem_cons]
    tauto

theorem insertIds_nodup (ids : List String) (seen : List String) (h : seen.Nodup) :
    (insertIds seen ids).Nodup := by
  induction ids generalizing seen with
  | nil => exact h
  | cons i rest ih => exact ih _ (setInsert_nodup _ _ h)

theorem insertIds_append (xs ys : List String) (seen : List String) :
    insertIds seen (xs ++ ys) = insertIds (insertIds seen xs) ys := by
  induction xs generalizing seen with
  | nil => rfl
  | cons x rest ih => simp [insertIds, ih]

theorem insertIds_eq_append_firstSeenIds (ids : List String) (seen : List String) :
    insertIds seen ids = seen ++ firstSeenIds seen ids := by
  induction ids generalizing seen with
  | nil => simp [insertIds, firstSeenIds]
  | cons i rest ih =>
    simp only [insertIds, firstSeenIds, setInsert]
    split
    · simp [ih]
    · simp [ih]

/-! ## Helper lemmas: association lists -/

theorem lookup_append {β : Type} (l1 l2 : List (String × β)) (k : String) :
    (l1 ++ l2).lookup k = ((l1.lookup k).orElse fun _ => l2.lookup k) := by
  induction l1 with
  | nil => rfl
  | cons p l ih =>
    obtain ⟨a, b⟩ := p
    by_cases hk : k = a
    · simp [List.lookup, hk]
    · simp [List.lookup, beq_eq_false_iff_ne.mpr hk, ih]

theorem lookup_isSome_iff {β : Type} (m : List (String × β)) (k : String) :
    (m.lookup k).isSome = true ↔ k ∈ m.map Prod.fst := by
  induction m with
  | nil => simp [List.lookup]
  | cons p l ih =>
    obtain ⟨a, b⟩ := p
    by_cases hk : k = a
    · simp [List.lookup, hk]
    · simp [List.lookup, beq_eq_false_iff_ne.mpr hk, ih, hk]

theorem lookup_mem {β : Type} (l : List (String × β)) (k : String) (v : β)
    (h : l.lookup k = some v) : (k, v) ∈ l := by
  induction l with
  | nil => simp [List.lookup] at h
  | cons p rest ih =>
    obtain ⟨a, b⟩ := p
    by_cases hk : k = a
    · subst hk
      simp [List.lookup] at h
      simp [h]
    · simp [List.lookup, beq_eq_false_iff_ne.mpr hk] at h
      exact List.mem_cons_of_mem _ (ih h)

theorem orElse_assoc {α : Type} (o : Option α) (f g : Unit → Option α) :
    ((o.orElse f).orElse g) = o.orElse (fun _ => (f ()).orElse g) := by
  cases o <;> rfl

theorem orElse_none {α : Type} (o : Option α) : (o.orElse fun _ => none) = o := by
  cases o <;> rfl

/-! ## Helper lemmas: `_ensure_node` and its folds -/

theorem ensure_node_eq (n : GNode) (m : List (String × VisNode))
    (o : Option (List String)) :
    ensure_node n m o
      = (visId n,
         (if (m.lookup (visId n)).isSome = true then m else m ++ [build_vis_node n]),
         o.map (fun s => setInsert s (visId n))) := by
  unfold ensure_node visId
  by_cases h : (m.lookup (build_vis_node n).1).isSome = true <;> simp [h]

theorem ensure_node_fst (n : GNode) (m : List (String × VisNode))
    (o : Option (List String)) : (ensure_node n m o).1 = visId n := by
  rw [ensure_node_eq]

theorem ensure_node_snd_fst (n : GNode) (m : List (String × VisNode))
    (o : Option (List String)) :
    (ensure_node n m o).2.1 = (ensure_node n m none).2.1 := by
  unfold ensure_node
  by_cases h : (m.lookup (build_vis_node n).1).isSome = true <;> simp [h]

theorem ensure_node_map_fst (n : GNode) (m : List (String × VisNode))
    (o : Option (List String)) :
    ((ensure_node n m o).2.1).map Prod.fst = setInsert (m.map Prod.fst) (visId n) := by
  unfold ensure_node setInsert visId
  by_cases h : (m.lookup (build_vis_node n).1).isSome = true
  · simp only [h, if_true]
    rw [if_pos ((lookup_isSome_iff m _).mp h)]
  · simp only [h, if_false]
    rw [if_neg (fun hm => h ((lookup_isSome_iff m _).mpr hm))]
    simp

theorem ensure_node_inner (n : GNode) (m : List (String × VisNode)) (s : List String) :
    (ensure_node n m (some s)).2.2 = some (setInsert s (visId n)) := by
  rw [ensure_node_eq]
  rfl

theorem ensure_node_lookup (n : GNode) (m : List (String × VisNode))
    (o : Option (List String)) (k : String) :
    ((ensure_node n m o).2.1).lookup k
      = ((m.lookup k).orElse fun _ =>
          if k = visId n then some (build_vis_node n).2 else none) := by
  rw [ensure_node_eq]
  by_cases h : (m.lookup (visId n)).isSome = true
  · rw [if_pos h]
    by_cases hk : k = visId n
    · subst hk
      obtain ⟨v, hv⟩ := Option.isSome_iff_exists.mp h
      simp [hv]
    · simp only [hk, if_false]
      exact (orElse_none _).symm
  · rw [if_neg h]
    show (m ++ [((build_vis_node n).1, (build_vis_node n).2)]).lookup k = _
    rw [lookup_append]
    by_cases hk : k = visId n
    · subst hk
      simp [List.lookup, visId]
    · have : k ≠ (build_vis_node n).1 := hk
      simp [List.lookup, beq_eq_false_iff_ne.mpr this, hk]

theorem ensure_node_mem (n : GNode) (m : List (String × VisNode))
    (o : Option (List String)) (p : String × VisNode)
    (hp : p ∈ (ensure_node n m o).2.1) : p ∈ m ∨ p = build_vis_node n := by
  rw [ensure_node_eq] at hp
  by_cases h : (m.lookup (visId n)).isSome = true
  · rw [if_pos h] at hp
    exact Or.inl hp
  · rw [if_neg h] at hp
    rcases List.mem_append.mp hp with h' | h'
    · exact Or.inl h'
    · exact Or.inr (List.mem_singleton.mp h')

theorem ensureList_append (m : List (String × VisNode)) (xs ys : List GNode) :
    ensureList m (xs ++ ys) = ensureList (ensureList m xs) ys := by
  simp [ensureList, List.foldl_append]

theorem ensureList_map_fst (ns : List GNode) (m : List (String × VisNode)) :
    (ensureList m ns).map Prod.fst = insertIds (m.map Prod.fst) (ns.map visId) := by
  induction ns generalizing m with
  | nil => rfl
  | cons n rest ih =>
    have step : ensureList m (n :: rest) = ensureList ((ensure_node n m none).2.1) rest := rfl
    rw [step, ih, ensure_node_map_fst]
    rfl

theorem ensureList_lookup (ns : List GNode) (m : List (String × VisNode)) (k : String) :
    (ensureList m ns).lookup k
      = ((m.lookup k).orElse fun _ =>
          (ns.find? (fun n => visId n == k)).map (fun n => (build_vis_node n).2)) := by
  induction ns generalizing m with
  | nil => exact (orElse_none _).symm
  | cons n rest ih =>
    have step : ensureList m (n :: rest) = ensureList ((ensure_node n m none).2.1) rest := rfl
    rw [step, ih, ensure_node_lookup, orElse_assoc]
    by_cases hk : k = visId n
    · subst hk
      simp [List.find?]
    · have hne : (visId n == k) = false := beq_eq_false_iff_ne.mpr (fun h => hk h.symm)
      simp [List.find?, hne, hk]

theorem ensureList_mem (ns : List GNode) (m : List (String × VisNode))
    (p : String × VisNode) (hp : p ∈ ensureList m ns) :
    p ∈ m ∨ ∃ n ∈ ns, p = build_vis_node n := by
  induction ns generalizing m with
  | nil => exact Or.inl hp
  | cons n rest ih =>
    have step : ensureList m (n :: rest) = ensureList ((ensure_node n m none).2.1) rest := rfl
    rw [step] at hp
    rcases ih _ hp with h | ⟨n', hn', rfl⟩
    · rcases ensure_node_mem n m none p h with h' | h'
      · exact Or.inl h'
      · exact Or.inr ⟨n, List.mem_cons_self n rest, h'⟩
    · exact Or.inr ⟨n', List.mem_cons_of_mem _ hn', rfl⟩

/-! ## Helper lemmas: fading and styles -/

theorem fadePass_mem_of_inner (m : List (String × VisNode)) (s : List String)
    (p : String × VisNode) (hp : p ∈ m) (hs : p.1 ∈ s) : p ∈ fadePass m s := by
  unfold fadePass
  exact List.mem_map.mpr ⟨p, hp, by simp [hs]⟩

theorem fadePass_mem_of_outer (m : List (String × VisNode)) (s : List String)
    (p : String × VisNode) (hp : p ∈ m) (hs : p.1 ∉ s) :
    (p.1, fadeNode p.2) ∈ fadePass m s := by
  unfold fadePass
  exact List.mem_map.mpr ⟨p, hp, by simp [hs]⟩

theorem fadePass_lookup (m : List (String × VisNode)) (s : List String) (k : String) :
    (fadePass m s).lookup k
      = (m.lookup k).map (fun v => if k ∈ s then v else fadeNode v) := by
  induction m with
  | nil => rfl
  | cons p rest ih =>
    obtain ⟨a, v⟩ := p
    have hcons : fadePass ((a, v) :: rest) s
        = (if a ∈ s then (a, v) else (a, fadeNode v)) :: fadePass rest s := rfl
    rw [hcons]
    by_cases hs : a ∈ s
    · rw [if_pos hs]
      by_cases hk : k = a
      · subst hk
        simp [List.lookup, hs]
      · simp [List.lookup, beq_eq_false_iff_ne.mpr hk, ih]
    · rw [if_neg hs]
      by_cases hk : k = a
      · subst hk
        simp [List.lookup, hs]
      · simp [List.lookup, beq_eq_false_iff_ne.mpr hk, ih]

theorem styleFor_size (lab : String) :
    (styleFor lab).size = 15 ∨ (styleFor lab).size = 20 ∨ (styleFor lab).size = 25 := by
  unfold styleFor
  cases h : STYLE.lookup lab with
  | none => left; rfl
  | some s =>
    have hm := lookup_mem _ _ _ h
    have hall : ∀ p ∈ STYLE, p.2.size = 15 ∨ p.2.size = 20 ∨ p.2.size = 25 := by decide
    simpa using hall _ hm

theorem build_vis_node_size (n : GNode) :
    (build_vis_node n).2.size = 15 ∨ (build_vis_node n).2.size = 20 ∨
      (build_vis_node n).2.size = 25 := by
  have : (build_vis_node n).2.size = (styleFor n.label).size := rfl
  rw [this]
  exact styleFor_size n.label

/-! ## Helper lemmas: state decomposition of the ego record loop -/

theorem addEdgeSt_nodesMap (st : EgoState) (rel : GRel) (a b : String) :
    (addEdgeSt st rel a b).nodesMap = st.nodesMap := rfl

theorem addEdgeSt_innerIds (st : EgoState) (rel : GRel) (a b : String) :
    (addEdgeSt st rel a b).innerIds = st.innerIds := rfl

theorem edgeStepR1_sets (st : EgoState) (r : EgoRecord) :
    (edgeStepR1 st r).nodesMap = st.nodesMap ∧ (edgeStepR1 st r).innerIds = st.innerIds := by
  unfold edgeStepR1
  cases r.r1 <;> exact ⟨rfl, rfl⟩

theorem edgeStepR2_sets (st : EgoState) (r : EgoRecord) :
    (edgeStepR2 st r).nodesMap = st.nodesMap ∧ (edgeStepR2 st r).innerIds = st.innerIds := by
  unfold edgeStepR2
  cases r.r2 <;> exact ⟨rfl, rfl⟩

theorem edgeStepR4_sets (mode : Bool) (st : EgoState) (r : EgoRecord) :
    (edgeStepR4 mode st r).nodesMap = st.nodesMap ∧
      (edgeStepR4 mode st r).innerIds = st.innerIds := by
  unfold edgeStepR4
  cases r.r4 <;> cases r.d2 <;> exact ⟨rfl, rfl⟩

theorem edgeStepR5_sets (mode : Bool) (st : EgoState) (r : EgoRecord) :
    (edgeStepR5 mode st r).nodesMap = st.nodesMap ∧
      (edgeStepR5 mode st r).innerIds = st.innerIds := by
  unfold edgeStepR5
  cases r.r5 <;> cases r.d2 <;> try exact ⟨rfl, rfl⟩
  cases (if mode then r.b2 else r.l2) <;> exact ⟨rfl, rfl⟩

theorem processEdges_sets (mode : Bool) (st : EgoState) (r : EgoRecord) :
    (processEdges mode st r).nodesMap = st.nodesMap ∧
      (processEdges mode st r).innerIds = st.innerIds := by
  unfold processEdges
  refine ⟨?_, ?_⟩
  · rw [(edgeStepR5_sets _ _ _).1, (edgeStepR4_sets _ _ _).1,
        (edgeStepR2_sets _ _).1, (edgeStepR1_sets _ _).1]
  · rw [(edgeStepR5_sets _ _ _).2, (edgeStepR4_sets _ _ _).2,
        (edgeStepR2_sets _ _).2, (edgeStepR1_sets _ _).2]

theorem ensureInner_nodesMap (st : EgoState) (o : Option GNode) :
    (ensureInner st o).nodesMap = ensureList st.nodesMap o.toList := by
  cases o with
  | none => rfl
  | some n => exact ensure_node_snd_fst n st.nodesMap (some st.innerIds)

theorem ensureInner_innerIds (st : EgoState) (o : Option GNode) :
    (ensureInner st o).innerIds = insertIds st.innerIds (o.toList.map visId) := by
  cases o with
  | none => rfl
  | some n =>
    show ((ensure_node n st.nodesMap (some st.innerIds)).2.2).getD st.innerIds = _
    rw [ensure_node_inner]
    rfl

theorem ensureInner_edges (st : EgoState) (o : Option GNode) :
    (ensureInner st o).edges = st.edges ∧ (ensureInner st o).edgeSet = st.edgeSet := by
  cases o <;> exact ⟨rfl, rfl⟩

theorem ensureOuter_nodesMap (st : EgoState) (o : Option GNode) :
    (ensureOuter st o).nodesMap = ensureList st.nodesMap o.toList := by
  cases o <;> rfl

theorem ensureOuter_innerIds (st : EgoState) (o : Option GNode) :
    (ensureOuter st o).innerIds = st.innerIds := by
  cases o <;> rfl

theorem ensureOuter_edges (st : EgoState) (o : Option GNode) :
    (ensureOuter st o).edges = st.edges ∧ (ensureOuter st o).edgeSet = st.edgeSet := by
  cases o <;> exact ⟨rfl, rfl⟩

theorem processInner_nodesMap (st : EgoState) (r : EgoRecord) :
    (processInner st r).nodesMap = ensureList st.nodesMap (innerNodes r) := by
  unfold processInner innerNodes
  rw [ensureInner_nodesMap, ensureInner_nodesMap, ensureInner_nodesMap,
      ensureList_append, ensureList_append]

theorem processInner_innerIds (st : EgoState) (r : EgoRecord) :
    (processInner st r).innerIds = insertIds st.innerIds ((innerNodes r).map visId) := by
  unfold processInner innerNodes
  rw [ensureInner_innerIds, ensureInner_innerIds, ensureInner_innerIds]
  simp [insertIds_append]

theorem processInner_edges (st : EgoState) (r : EgoRecord) :
    (processInner st r).edges = st.edges ∧ (processInner st r).edgeSet = st.edgeSet := by
  unfold processInner
  rw [(ensureInner_edges _ _).1, (ensureInner_edges _ _).1, (ensureInner_edges _ _).1]
  rw [(ensureInner_edges _ _).2, (ensureInner_edges _ _).2, (ensureInner_edges _ _).2]
  exact ⟨rfl, rfl⟩

theorem processOuterNodes_nodesMap (mode : Bool) (st : EgoState) (r : EgoRecord) :
    (processOuterNodes mode st r).nodesMap
      = ensureList st.nodesMap (r.d2.toList ++ (if mode then r.b2 else r.l2).toList) := by
  unfold processOuterNodes
  rw [ensureOuter_nodesMap, ensureOuter_nodesMap, ensureList_append]

theorem processOuterNodes_innerIds (mode : Bool) (st : EgoState) (r : EgoRecord) :
    (processOuterNodes mode st r).innerIds = st.innerIds := by
  unfold processOuterNodes
  rw [ensureOuter_innerIds, ensureOuter_innerIds]

theorem processOuterNodes_edges (mode : Bool) (st : EgoState) (r : EgoRecord) :
    (processOuterNodes mode st r).edges = st.edges ∧
      (processOuterNodes mode st r).edgeSet = st.edgeSet := by
  unfold processOuterNodes
  rw [(ensureOuter_edges _ _).1, (ensureOuter_edges _ _).1]
  rw [(ensureOuter_edges _ _).2, (ensureOuter_edges _ _).2]
  exact ⟨rfl, rfl⟩

theorem processEgoRecord_nodesMap (mode : Bool) (st : EgoState) (r : EgoRecord) :
    (processEgoRecord mode st r).nodesMap = ensureList st.nodesMap (recordNodes mode r) := by
  unfold processEgoRecord recordNodes
  rw [(processEdges_sets _ _ _).1, processOuterNodes_nodesMap, processInner_nodesMap]
  unfold innerNodes
  rw [← ensureList_append]
  simp

theorem processEgoRecord_innerIds (mode : Bool) (st : EgoState) (r : EgoRecord) :
    (processEgoRecord mode st r).innerIds
      = insertIds st.innerIds ((innerNodes r).map visId) := by
  unfold processEgoRecord
  rw [(processEdges_sets _ _ _).2, processOuterNodes_innerIds, processInner_innerIds]

theorem egoFold_step (mode : Bool) (records : List EgoRecord) (st : EgoState) :
    List.foldl (processEgoRecord mode) st records
      = match records with
        | [] => st
        | r :: rest => List.foldl (processEgoRecord mode) (processEgoRecord mode st r) rest := by
  cases records <;> rfl

theorem egoFoldFrom_nodesMap (mode : Bool) (records : List EgoRecord) (st : EgoState) :
    (List.foldl (processEgoRecord mode) st records).nodesMap
      = ensureList st.nodesMap (records.flatMap (recordNodes mode)) := by
  induction records generalizing st with
  | nil => rfl
  | cons r rest ih =>
    rw [List.foldl_cons, ih, processEgoRecord_nodesMap]
    simp [ensureList_append]

theorem egoFoldFrom_innerIds (mode : Bool) (records : List EgoRecord) (st : EgoState) :
    (List.foldl (processEgoRecord mode) st records).innerIds
      = insertIds st.innerIds ((records.flatMap innerNodes).map visId) := by
  induction records generalizing st with
  | nil => rfl
  | cons r rest ih =>
    rw [List.foldl_cons, ih, processEgoRecord_innerIds]
    simp [insertIds_append]

theorem egoFold_nodesMap (mode : Bool) (records : List EgoRecord) :
    (egoFold mode records).nodesMap = ensureList [] (records.flatMap (recordNodes mode)) :=
  egoFoldFrom_nodesMap mode records ⟨[], [], [], []⟩

theorem egoFold_innerIds (mode : Bool) (records : List EgoRecord) :
    (egoFold mode records).innerIds = insertIds [] ((records.flatMap innerNodes).map visId) :=
  egoFoldFrom_innerIds mode records ⟨[], [], [], []⟩

/-! ## Helper lemmas: edge deduplication invariant -/

theorem nodup_append_single {α : Type} (l : List α) (a : α)
    (h : l.Nodup) (ha : a ∉ l) : (l ++ [a]).Nodup :=
  List.nodup_append.mpr ⟨h, List.nodup_singleton a,
    fun _ hx hxa => ha ((List.mem_singleton.mp hxa) ▸ hx)⟩

/-- The keys paired with the emitted edges are exactly the dedup set,
and that set has no duplicates. -/
def edgeInv (st : EgoState) : Prop :=
  st.edges.map Prod.fst = st.edgeSet ∧ st.edgeSet.Nodup

theorem add_edge_eq (rel : GRel) (a b : String)
    (edges : List (EdgeKey × VisEdge)) (eset : List EdgeKey) :
    add_edge rel a b edges eset
      = if ((a, rel.type, b) : EdgeKey) ∈ eset then (edges, eset)
        else (edges ++ [((a, rel.type, b), build_vis_edge rel a b)],
              eset ++ [(a, rel.type, b)]) := by
  unfold add_edge
  by_cases h : ((a, rel.type, b) : EdgeKey) ∈ eset <;> simp [h]

theorem addEdgeSt_inv (st : EgoState) (rel : GRel) (a b : String)
    (h : edgeInv st) : edgeInv (addEdgeSt st rel a b) := by
  unfold addEdgeSt edgeInv
  rw [add_edge_eq]
  by_cases hk : ((a, rel.type, b) : EdgeKey) ∈ st.edgeSet
  · rw [if_pos hk]
    exact h
  · rw [if_neg hk]
    refine ⟨?_, ?_⟩
    · show (st.edges ++ [((a, rel.type, b), build_vis_edge rel a b)]).map Prod.fst
          = st.edgeSet ++ [(a, rel.type, b)]
      simp [h.1]
    · exact nodup_append_single _ _ h.2 hk

theorem edgeStepR1_inv (st : EgoState) (r : EgoRecord) (h : edgeInv st) :
    edgeInv (edgeStepR1 st r) := by
  unfold edgeStepR1
  cases r.r1 with
  | none => exact h
  | some rel => exact addEdgeSt_inv _ _ _ _ h

theorem edgeStepR2_inv (st : EgoState) (r : EgoRecord) (h : edgeInv st) :
    edgeInv (edgeStepR2 st r) := by
  unfold edgeStepR2
  cases r.r2 with
  | none => exact h
  | some rel => exact addEdgeSt_inv _ _ _ _ h

theorem edgeStepR4_inv (mode : Bool) (st : EgoState) (r : EgoRecord) (h : edgeInv st) :
    edgeInv (edgeStepR4 mode st r) := by
  unfold edgeStepR4
  cases r.r4 <;> cases r.d2 <;> first
    | exact h
    | exact addEdgeSt_inv _ _ _ _ h

theorem edgeStepR5_inv (mode : Bool) (st : EgoState) (r : EgoRecord) (h : edgeInv st) :
    edgeInv (edgeStepR5 mode st r) := by
  unfold edgeStepR5
  cases r.r5 <;> cases r.d2 <;> try exact h
  cases (if mode then r.b2 else r.l2) <;> first
    | exact h
    | exact addEdgeSt_inv _ _ _ _ h

theorem edgeInv_congr (st st' : EgoState) (he : st'.edges = st.edges)
    (hs : st'.edgeSet = st.edgeSet) (h : edgeInv st) : edgeInv st' := by
  unfold edgeInv at h ⊢
  rw [he, hs]
  exact h

theorem processEgoRecord_inv (mode : Bool) (st : EgoState) (r : EgoRecord)
    (h : edgeInv st) : edgeInv (processEgoRecord mode st r) := by
  unfold processEgoRecord processEdges
  apply edgeStepR5_inv
  apply edgeStepR4_inv
  apply edgeStepR2_inv
  apply edgeStepR1_inv
  apply edgeInv_congr _ _ (processOuterNodes_edges mode _ r).1 (processOuterNodes_edges mode _ r).2
  apply edgeInv_congr _ _ (processInner_edges _ r).1 (processInner_edges _ r).2
  exact h

theorem egoFold_inv (mode : Bool) (records : List EgoRecord) :
    edgeInv (egoFold mode records) := by
  unfold egoFold
  have h : ∀ (st : EgoState), edgeInv st →
      edgeInv (List.foldl (processEgoRecord mode) st records) := by
    induction records with
    | nil => exact fun st h => h
    | cons r rest ih =>
      intro st h
      rw [List.foldl_cons]
      exact ih _ (processEgoRecord_inv mode st r h)
  exact h ⟨[], [], [], []⟩ ⟨rfl, List.nodup_nil⟩

/-! ## Helper lemmas: whole-graph fold -/

theorem processWholeRow_nodesMap (st : WholeState) (row : RowNRM) :
    (processWholeRow st row).nodesMap = ensureList st.nodesMap (rowNodes row) := by
  obtain ⟨n, r, m⟩ := row
  cases r <;> cases m <;> rfl

theorem processWholeRow_edges_len (st : WholeState) (row : RowNRM) :
    (processWholeRow st row).edges.length
      = st.edges.length + (if row.r.isSome && row.m.isSome then 1 else 0) := by
  obtain ⟨n, r, m⟩ := row
  cases r <;> cases m <;> simp [processWholeRow]

theorem assembleWholeFrom_nodesMap (records : List RowNRM) (st : WholeState) :
    (List.foldl processWholeRow st records).nodesMap
      = ensureList st.nodesMap (encounterNodes records) := by
  induction records generalizing st with
  | nil => rfl
  | cons row rest ih =>
    rw [List.foldl_cons, ih, processWholeRow_nodesMap]
    simp [encounterNodes, ensureList_append]

theorem assembleWhole_nodesMap (records : List RowNRM) :
    (assembleWhole records).nodesMap = ensureList [] (encounterNodes records) :=
  assembleWholeFrom_nodesMap records ⟨[], []⟩

theorem assembleWholeFrom_edges_len (records : List RowNRM) (st : WholeState) :
    (List.foldl processWholeRow st records).edges.length
      = st.edges.length
        + (records.filter (fun row => row.r.isSome && row.m.isSome)).length := by
  induction records generalizing st with
  | nil => rfl
  | cons row rest ih =>
    rw [List.foldl_cons, ih, processWholeRow_edges_len, List.filter_cons]
    by_cases h : (row.r.isSome && row.m.isSome) = true
    · simp [h]
      omega
    · simp [h]

/-! ## Helper lemmas: `get_node` connection deduplication -/

theorem connStep_inv (acc : List Connection × List (String × String × String))
    (row : RowNRM) (h : acc.1.map connKey = acc.2 ∧ acc.2.Nodup) :
    (connStep acc row).1.map connKey = (connStep acc row).2 ∧
      (connStep acc row).2.Nodup := by
  unfold connStep
  obtain ⟨n, r, m⟩ := row
  cases r with
  | none => exact h
  | some rel =>
    cases m with
    | none => exact h
    | some other =>
      by_cases hk : ((rel.type, other.label, other.name)) ∈ acc.2
      · simp only [hk, if_true]
        exact h
      · simp only [hk, if_false]
        refine ⟨?_, nodup_append_single _ _ h.2 hk⟩
        simp [h.1, connKey]

theorem connectionsOf_nodup (records : List RowNRM) :
    ((connectionsOf records).map connKey).Nodup := by
  unfold connectionsOf
  have h : ∀ (acc : List Connection × List (String × String × String)),
      acc.1.map connKey = acc.2 ∧ acc.2.Nodup →
      (records.foldl connStep acc).1.map connKey = (records.foldl connStep acc).2 ∧
        (records.foldl connStep acc).2.Nodup := by
    induction records with
    | nil => exact fun acc h => h
    | cons row rest ih =>
      intro acc h
      rw [List.foldl_cons]
      exact ih _ (connStep_inv acc row h)
  have hfin := h ([], []) ⟨rfl, List.nodup_nil⟩
  rw [hfin.1]
  exact hfin.2

/-! ## Helper lemmas: ego query row analysis -/

theorem mem_optRows {α β : Type} (ms : List α) (k : Option α → List β) (b : β)
    (hb : b ∈ optRows ms k) :
    (ms = [] ∧ b ∈ k none) ∨ ∃ m ∈ ms, b ∈ k (some m) := by
  cases ms with
  | nil => exact Or.inl ⟨rfl, hb⟩
  | cons m ms' => exact Or.inr (List.mem_flatMap.mp hb)

theorem otherDealsOf_ne (g : Graph) (pIdx dIdx : Nat) (rt : String)
    (pr : GRel × GNode) (h : pr ∈ otherDealsOf g pIdx dIdx rt) :
    pr.2.nid ≠ dIdx := by
  unfold otherDealsOf at h
  rcases List.mem_filterMap.mp h with ⟨t, _, ht⟩
  split at ht
  · cases hf : findNode g t.dst with
    | none =>
      rw [hf] at ht
      simp at ht
    | some d2 =>
      rw [hf] at ht
      dsimp only at ht
      by_cases hc : (d2.hasLabel "Deal" && !(d2.nid == dIdx)) = true
      · rw [if_pos hc] at ht
        rw [Bool.and_eq_true] at hc
        have heq := Option.some.inj ht
        rw [← heq]
        simpa using hc.2
      · rw [if_neg hc] at ht
        simp at ht
  · simp at ht

theorem focalMatches_nil (g : Graph) (name lab rt : String)
    (h : ∀ n ∈ g.nodes, ¬(n.hasLabel lab = true ∧ n.name = name)) :
    focalMatches g name lab rt = [] := by
  rw [List.eq_nil_iff_forall_not_mem]
  intro x hx
  rcases List.mem_filterMap.mp hx with ⟨t, _, ht⟩
  cases hs : findNode g t.src with
  | none =>
    rw [hs] at ht
    cases hd : findNode g t.dst <;> rw [hd] at ht <;> simp at ht
  | some f =>
    rw [hs] at ht
    cases hd : findNode g t.dst with
    | none =>
      rw [hd] at ht
      simp at ht
    | some d =>
      rw [hd] at ht
      dsimp only at ht
      by_cases hc : (t.rel.type == rt && f.hasLabel lab && f.name == name
          && d.hasLabel "Deal") = true
      · have hf : f ∈ g.nodes := List.mem_of_find?_eq_some hs
        simp only [Bool.and_eq_true, beq_iff_eq] at hc
        exact h f hf ⟨hc.1.1.2, hc.1.2⟩
      · rw [if_neg hc] at ht
        simp at ht

theorem borrowerRows_nil (g : Graph) (name : String)
    (h : focalMatches g name "Borrower" "BORROWED" = []) :
    borrowerRows g name = [] := by
  unfold borrowerRows
  rw [h]
  rfl

theorem lenderRows_nil (g : Graph) (name : String)
    (h : focalMatches g name "Lender" "LENT_TO" = []) :
    lenderRows g name = [] := by
  unfold lenderRows
  rw [h]
  rfl

/-! ## Concrete demo data used by counterexamples and witnesses -/

/-- a Borrower node named F -/
def nF : GNode := ⟨0, ["Borrower"], [("name", "F")]⟩

/-- a Deal node named D1 -/
def nD1 : GNode := ⟨1, ["Deal"], [("name", "D1")]⟩

/-- a Deal node named D2 -/
def nD2 : GNode := ⟨2, ["Deal"], [("name", "D2")]⟩

/-- a Lender node named L -/
def nL : GNode := ⟨3, ["Lender"], [("name", "L")]⟩

/-- a second Borrower node named B2 -/
def nB2 : GNode := ⟨4, ["Borrower"], [("name", "B2")]⟩

/-- A graph with one lender L linked to one deal D by two parallel
`LENT_TO` relationships of identical type and properties (a property
graph permits parallel relationships between the same endpoints). -/
def c1Rel : GRel := ⟨"LENT_TO", [("commitment_mm", "10")]⟩

def c1Graph : Graph :=
  ⟨[⟨0, ["Lender"], [("name", "L")]⟩, ⟨1, ["Deal"], [("name", "D")]⟩],
   [⟨c1Rel, 0, 1⟩, ⟨c1Rel, 0, 1⟩]⟩

/-- The MedTech-style configuration: the focal borrower F has two deals
D1 and D2, and the lender L participates in both (compare Ares Capital
on both MedTech deals in the seeded data). -/
def c2Graph : Graph :=
  ⟨[nF, nD1, nD2, nL],
   [⟨⟨"BORROWED", []⟩, 0, 1⟩, ⟨⟨"BORROWED", []⟩, 0, 2⟩,
    ⟨⟨"LENT_TO", [("commitment_mm", "10")]⟩, 3, 1⟩,
    ⟨⟨"LENT_TO", [("commitment_mm", "20")]⟩, 3, 2⟩]⟩

/-- The first row the Borrower ego query returns on `c2Graph` for focal
F: inner deal D1, counterpart L, outer deal D2 — which is another deal
of the focal F — and second-order borrower F itself. -/
def c2Row : EgoRecord :=
  ⟨some nF, some ⟨"BORROWED", []⟩, some nD1, some nL,
   some ⟨"LENT_TO", [("commitment_mm", "10")]⟩, some nD2,
   some ⟨"LENT_TO", [("commitment_mm", "20")]⟩, some nF, none,
   some ⟨"BORROWED", []⟩⟩

/-- Does some Borrower node named `name` borrow the deal with id `dIdx`? -/
def participatesB (g : Graph) (name : String) (dIdx : Nat) : Bool :=
  g.rels.any fun t =>
    t.rel.type == "BORROWED" && t.dst == dIdx &&
      (match findNode g t.src with
       | some b => b.hasLabel "Borrower" && b.name == name
       | none => false)

/-- Does the outer-tier "other deals" step of the Borrower ego query
discover (bind as `d2`) a deal the focal entity itself participates in? -/
def outerDiscoversFocalDealB (g : Graph) (name : String) : Bool :=
  (borrowerRows g name).any fun r =>
    match r.d2 with
    | some d2 => participatesB g name d2.nid
    | none => false

/-- An ego demo where the outer tier is genuinely outer: F borrows D1,
L lends to D1 and to D2, and B2 borrows D2.  D2 and B2 end up faded. -/
def egoG : Graph :=
  ⟨[nF, nD1, nD2, nL, nB2],
   [⟨⟨"BORROWED", []⟩, 0, 1⟩,
    ⟨⟨"LENT_TO", [("commitment_mm", "10")]⟩, 3, 1⟩,
    ⟨⟨"LENT_TO", [("commitment_mm", "20")]⟩, 3, 2⟩,
    ⟨⟨"BORROWED", []⟩, 4, 2⟩]⟩

/-- A single ego record whose only bound entry is the focal borrower. -/
def c3Rec : EgoRecord :=
  ⟨some nF, none, none, none, none, none, none, none, none, none⟩

/-- Rows of the `get_node` query in which the same neighbor relationship
appears twice (the undirected match can traverse it in both directions). -/
def nodeRowsDemo : List RowNRM :=
  [⟨nL, some ⟨"LENT_TO", [("commitment_mm", "10")]⟩, some nD1⟩,
   ⟨nL, some ⟨"LENT_TO", [("commitment_mm", "10")]⟩, some nD1⟩]

/-! ## Claim theorems -/

/-- C1, counterexample: the whole-graph endpoint `GET /api/graph`
performs no per-triple edge deduplication — on a graph with two parallel
`LENT_TO` relationships between the same lender and deal, the response
contains two VisEdges for the single (fromNodeId, relationshipType,
toNodeId) triple `("Lender:L", "LENT_TO", "Deal:D")`, refuting the claim
that every graph-assembly response has at most one VisEdge per triple. -/
theorem c1_whole_graph_duplicate_triple :
    (get_graph c1Graph).edges
      = [build_vis_edge c1Rel "Lender:L" "Deal:D",
         build_vis_edge c1Rel "Lender:L" "Deal:D"] ∧
    (build_vis_edge c1Rel "Lender:L" "Deal:D").fromId = "Lender:L" ∧
    (build_vis_edge c1Rel "Lender:L" "Deal:D").toId = "Deal:D" ∧
    c1Rel.type = "LENT_TO" := by
  refine ⟨?_, rfl, rfl, rfl⟩
  rfl

/-- C1, amended: the ego-network view deduplicates edges by the
(fromNodeId, relationshipType, toNodeId) key — the keys paired with its
emitted edges are pairwise distinct, for any record list and either
focal kind — while the whole-graph view appends exactly one VisEdge per
relationship-bearing row, with no per-triple deduplication. -/
theorem c1_edge_dedup_amended :
    (∀ (isBorrower : Bool) (records : List EgoRecord),
        ((egoFold isBorrower records).edges.map Prod.fst).Nodup ∧
        (assembleEgo isBorrower records).edges
          = (egoFold isBorrower records).edges.map Prod.snd) ∧
    (∀ records : List RowNRM,
        (assembleWhole records).edges.length
          = (records.filter (fun row => row.r.isSome && row.m.isSome)).length) := by
  refine ⟨fun mode records => ⟨?_, rfl⟩, fun records => ?_⟩
  · have h := egoFold_inv mode records
    rw [h.1]
    exact h.2
  · have h := assembleWholeFrom_edges_len records ⟨[], []⟩
    simpa using h

/-- C2, counterexample: on `c2Graph` (focal borrower F with deals D1 and
D2, lender L on both) the outer-tier "other deals" step binds `d2` to a
deal the focal entity itself participates in: the `WHERE d2 <> d` filter
only excludes the deal of the current row, not every deal of the focal
entity. -/
theorem c2_outer_discovers_focal_deal :
    outerDiscoversFocalDealB c2Graph "F" = true := by decide

/-- C2, amended: the outer-tier search excludes, in each row, exactly
the inner-tier deal bound in that same row: whenever a row of either ego
query carries both an inner deal `d` and an outer deal `d2`, the two are
distinct nodes.  (A different deal of the focal entity can still be
discovered as `d2`, as the counterexample shows.) -/
theorem c2_other_deals_amended (g : Graph) (name : String) :
    (∀ r ∈ borrowerRows g name, ∀ dd d2,
        r.d = some dd → r.d2 = some d2 → d2.nid ≠ dd.nid) ∧
    (∀ r ∈ lenderRows g name, ∀ dd d2,
        r.d = some dd → r.d2 = some d2 → d2.nid ≠ dd.nid) := by
  constructor
  · intro r hr dd d2 hd hd2
    unfold borrowerRows at hr
    rcases List.mem_flatMap.mp hr with ⟨bm, _, hr⟩
    rcases mem_optRows _ _ _ hr with ⟨_, hr⟩ | ⟨m2, _, hr⟩
    · rw [List.mem_singleton.mp hr] at hd2
      simp at hd2
    · obtain ⟨l, r2⟩ := m2
      rcases mem_optRows _ _ _ hr with ⟨_, hr⟩ | ⟨m4, hm4, hr⟩
      · rw [List.mem_singleton.mp hr] at hd2
        simp at hd2
      · obtain ⟨r4, d2'⟩ := m4
        have hne : d2'.nid ≠ bm.2.2.nid := otherDealsOf_ne _ _ _ _ _ hm4
        rcases mem_optRows _ _ _ hr with ⟨_, hr⟩ | ⟨m5, _, hr⟩
        · rw [List.mem_singleton.mp hr] at hd hd2
          simp at hd hd2
          rw [← hd, ← hd2]
          exact hne
        · obtain ⟨b2, r5⟩ := m5
          rw [List.mem_singleton.mp hr] at hd hd2
          simp at hd hd2
          rw [← hd, ← hd2]
          exact hne
  · intro r hr dd d2 hd hd2
    unfold lenderRows at hr
    rcases List.mem_flatMap.mp hr with ⟨lm, _, hr⟩
    rcases mem_optRows _ _ _ hr with ⟨_, hr⟩ | ⟨m1, _, hr⟩
    · rw [List.mem_singleton.mp hr] at hd2
      simp at hd2
    · obtain ⟨b, r1⟩ := m1
      rcases mem_optRows _ _ _ hr with ⟨_, hr⟩ | ⟨m4, hm4, hr⟩
      · rw [List.mem_singleton.mp hr] at hd2
        simp at hd2
      · obtain ⟨r4, d2'⟩ := m4
        have hne : d2'.nid ≠ lm.2.2.nid := otherDealsOf_ne _ _ _ _ _ hm4
        rcases mem_optRows _ _ _ hr with ⟨_, hr⟩ | ⟨m5, _, hr⟩
        · rw [List.mem_singleton.mp hr] at hd hd2
          simp at hd hd2
          rw [← hd, ← hd2]
          exact hne
        · obtain ⟨l2, r5⟩ := m5
          rw [List.mem_singleton.mp hr] at hd hd2
          simp at hd hd2
          rw [← hd, ← hd2]
          exact hne

/-- C2, amended, witness: the amended per-row exclusion evaluated on the
concrete counterexample graph at its first query row. -/
theorem c2_other_deals_amended_witness : nD2.nid ≠ nD1.nid :=
  (c2_other_deals_amended c2Graph "F").1 c2Row (by decide) nD1 nD2 rfl rfl

/-- C3: tier classification is a monotone one-way promotion — a node
appearing under an inner-tier key (`b`, `d` or `l`) in any record of the
ego query, in any record order and for either focal kind, has its id in
the final inner set, and looking its id up after the fading pass returns
the node unchanged (fading is never applied to it). -/
theorem c3_tier_monotonicity (isBorrower : Bool) (records : List EgoRecord)
    (n : GNode) (h : ∃ r ∈ records, n ∈ innerNodes r) :
    visId n ∈ (egoFold isBorrower records).innerIds ∧
    (fadePass (egoFold isBorrower records).nodesMap
        (egoFold isBorrower records).innerIds).lookup (visId n)
      = (egoFold isBorrower records).nodesMap.lookup (visId n) := by
  have hmem : visId n ∈ (egoFold isBorrower records).innerIds := by
    rw [egoFold_innerIds, mem_insertIds]
    exact Or.inr (List.mem_map.mpr ⟨n, List.mem_flatMap.mpr h, rfl⟩)
  refine ⟨hmem, ?_⟩
  rw [fadePass_lookup]
  cases hl : (egoFold isBorrower records).nodesMap.lookup (visId n) with
  | none => rfl
  | some v => simp [hmem]

/-- C3, witness: the monotonicity theorem evaluated at a one-record list
whose only bound entry is the focal borrower F. -/
theorem c3_tier_monotonicity_witness :
    visId nF ∈ (egoFold true [c3Rec]).innerIds ∧
    (fadePass (egoFold true [c3Rec]).nodesMap
        (egoFold true [c3Rec]).innerIds).lookup (visId nF)
      = (egoFold true [c3Rec]).nodesMap.lookup (visId nF) :=
  c3_tier_monotonicity true [c3Rec] nF ⟨c3Rec, by decide, by decide⟩

/-- C4: for every input row sequence the whole-graph assembler emits
exactly one VisNode per NodeId — the emitted node ids are pairwise
distinct, an id is emitted iff some row references it, and the emitted
order is the first-seen order of the encounter sequence (subject node
first, then the object node of relationship-bearing rows). -/
theorem c4_node_dedup_first_seen (records : List RowNRM) :
    ((assembleWhole records).nodesMap.map (fun p => p.2.id))
        = firstSeenIds [] ((encounterNodes records).map visId) ∧
    ((assembleWhole records).nodesMap.map (fun p => p.2.id)).Nodup ∧
    ∀ x, (x ∈ (assembleWhole records).nodesMap.map (fun p => p.2.id) ↔
          x ∈ (encounterNodes records).map visId) := by
  have hid : (assembleWhole records).nodesMap.map (fun p => p.2.id)
      = (assembleWhole records).nodesMap.map Prod.fst := by
    apply List.map_congr_left
    intro p hp
    rw [assembleWhole_nodesMap] at hp
    rcases ensureList_mem _ _ _ hp with h | ⟨n, _, rfl⟩
    · simp at h
    · rfl
  have hkeys : (assembleWhole records).nodesMap.map Prod.fst
      = insertIds [] ((encounterNodes records).map visId) := by
    rw [assembleWhole_nodesMap, ensureList_map_fst]
    rfl
  refine ⟨?_, ?_, ?_⟩
  · rw [hid, hkeys, insertIds_eq_append_firstSeenIds]
    rfl
  · rw [hid, hkeys]
    exact insertIds_nodup _ _ List.nodup_nil
  · intro x
    rw [hid, hkeys, mem_insertIds]
    simp

/-- C5: after ego assembly, every node whose id is not in the inner set
appears in the faded node list with its size at exactly 60 percent of
the styled original (exact because every styled size is 15, 20 or 25),
its color wrapped into a background/opacity pair carrying the original
color, and a muted font color; every node whose id is in the inner set
appears unchanged. -/
theorem c5_fading (isBorrower : Bool) (records : List EgoRecord)
    (p : String × VisNode) (hp : p ∈ (egoFold isBorrower records).nodesMap) :
    (p.1 ∉ (egoFold isBorrower records).innerIds →
       (p.1, fadeNode p.2) ∈ fadePass (egoFold isBorrower records).nodesMap
           (egoFold isBorrower records).innerIds ∧
       (fadeNode p.2).size * 10 = p.2.size * 6 ∧
       (fadeNode p.2).color = VisColor.faded p.2.color 45 ∧
       (fadeNode p.2).font = some ⟨"#707090"⟩) ∧
    (p.1 ∈ (egoFold isBorrower records).innerIds →
       p ∈ fadePass (egoFold isBorrower records).nodesMap
             (egoFold isBorrower records).innerIds) := by
  constructor
  · intro hout
    refine ⟨fadePass_mem_of_outer _ _ _ hp hout, ?_, rfl, rfl⟩
    have hsz : p.2.size = 15 ∨ p.2.size = 20 ∨ p.2.size = 25 := by
      rw [egoFold_nodesMap] at hp
      rcases ensureList_mem _ _ _ hp with h | ⟨n, _, rfl⟩
      · simp at h
      · exact build_vis_node_size n
    show p.2.size * 6 / 10 * 10 = p.2.size * 6
    rcases hsz with h | h | h <;> rw [h]
  · exact fun hin => fadePass_mem_of_inner _ _ _ hp hin

/-- C5, witness: the fading theorem evaluated on the demo ego graph at
the outer-tier deal D2, which ends up faded. -/
theorem c5_fading_witness :
    ("Deal:D2", fadeNode (build_vis_node nD2).2) ∈
        fadePass (egoFold true (borrowerRows egoG "F")).nodesMap
          (egoFold true (borrowerRows egoG "F")).innerIds ∧
    (fadeNode (build_vis_node nD2).2).size * 10 = (build_vis_node nD2).2.size * 6 := by
  have h := (c5_fading true (borrowerRows egoG "F")
    ("Deal:D2", (build_vis_node nD2).2) (by decide)).1 (by decide)
  exact ⟨h.1, h.2.1⟩

/-- C6: `GET /api/graph/{label}/{name}` answers 400 (bad request)
whenever the label is neither Borrower nor Lender, for every graph
content; and whenever the label is valid but no node carries that label
and name, the query returns no rows and the endpoint answers 404 with
the message naming label and name.  In both cases the result is an
error, so no graph payload is returned. -/
theorem c6_error_handling (g : Graph) (label name : String) :
    (label ≠ "Borrower" → label ≠ "Lender" →
       get_entity_graph g label name
         = .error (.badRequest "Label must be Borrower or Lender")) ∧
    ((∀ n ∈ g.nodes, ¬(n.hasLabel label = true ∧ n.name = name)) →
       label = "Borrower" ∨ label = "Lender" →
       get_entity_graph g label name
         = .error (.notFound (label ++ " \x27" ++ name ++ "\x27 not found"))) := by
  constructor
  · intro h1 h2
    unfold get_entity_graph
    rw [if_neg, if_neg]
    · simp [h2]
    · simp [h1]
  · intro hno hlab
    rcases hlab with rfl | rfl
    · have hnil : borrowerRows g name = [] :=
        borrowerRows_nil _ _ (focalMatches_nil _ _ _ _ hno)
      simp [get_entity_graph, hnil]
    · have hnil : lenderRows g name = [] :=
        lenderRows_nil _ _ (focalMatches_nil _ _ _ _ hno)
      simp [get_entity_graph, hnil]

/-- C6, witness: a Sector-labelled request is answered 400, and a
Borrower request for an absent name is answered 404, on the concrete
demo graph. -/
theorem c6_error_handling_witness :
    get_entity_graph c2Graph "Sector" "Healthcare"
        = .error (.badRequest "Label must be Borrower or Lender") ∧
    get_entity_graph c2Graph "Borrower" "Nobody"
        = .error (.notFound ("Borrower" ++ " \x27" ++ "Nobody" ++ "\x27 not found")) :=
  ⟨(c6_error_handling c2Graph "Sector" "Healthcare").1 (by decide) (by decide),
   (c6_error_handling c2Graph "Borrower" "Nobody").2 (by decide) (Or.inl rfl)⟩

/-- C7: whenever `GET /api/node/{label}/{name}` succeeds, the
connections list of the payload contains at most one entry per
(relationship type, neighbor label, neighbor name) triple — the keys of
its entries are pairwise distinct, for every record list the query may
return. -/
theorem c7_connection_dedup (label name : String) (records : List RowNRM)
    (payload : NodePayload) (h : get_node label name records = .ok payload) :
    (payload.connections.map connKey).Nodup := by
  cases records with
  | nil => simp [get_node] at h
  | cons r0 rest =>
    have h' : (Except.ok ⟨label, name, r0.n.props, connectionsOf (r0 :: rest)⟩ :
        Except ApiError NodePayload) = Except.ok payload := h
    have hinj := Except.ok.inj h'
    rw [← hinj]
    exact connectionsOf_nodup _

/-- C7, witness: the dedup theorem evaluated on a record list in which
the same lender-deal relationship appears twice; only one connection
entry remains. -/
theorem c7_connection_dedup_witness :
    ((connectionsOf nodeRowsDemo).map connKey).Nodup :=
  c7_connection_dedup "Lender" "L" nodeRowsDemo
    { label := "Lender", name := "L", properties := nL.props,
      connections := connectionsOf nodeRowsDemo } rfl

/-- C8: style resolution is total — it returns the fixed preset for
each of the four known labels Borrower, Lender, Deal and Sector, and
the single fallback preset for every other label string. -/
theorem c8_style_totality :
    styleFor "Borrower" = ⟨"#4A90D9", "dot", 25⟩ ∧
    styleFor "Lender" = ⟨"#5CB85C", "diamond", 25⟩ ∧
    styleFor "Deal" = ⟨"#F0AD4E", "square", 20⟩ ∧
    styleFor "Sector" = ⟨"#9B59B6", "triangle", 20⟩ ∧
    ∀ label : String,
      label ∉ (["Borrower", "Lender", "Deal", "Sector"] : List String) →
        styleFor label = DEFAULT_STYLE := by
  refine ⟨rfl, rfl, rfl, rfl, ?_⟩
  intro label h
  simp only [List.mem_cons, List.not_mem_nil, or_false, not_or] at h
  obtain ⟨h1, h2, h3, h4⟩ := h
  unfold styleFor STYLE
  simp [List.lookup, beq_eq_false_iff_ne.mpr h1, beq_eq_false_iff_ne.mpr h2,
    beq_eq_false_iff_ne.mpr h3, beq_eq_false_iff_ne.mpr h4]

/-- C8, witness: the totality theorem evaluated at an unknown label. -/
theorem c8_style_totality_witness : styleFor "Holding" = DEFAULT_STYLE :=
  c8_style_totality.2.2.2.2 "Holding" (by decide)

/-- C9: the projected edge label is the relationship type with every
underscore replaced by a space; exactly when the relationship carries a
`commitment_mm` property a second line `$<value>MM` is appended (a
missing property contributes nothing); and the hover text is a bold
relationship-type header followed by one `key: value` line per
relationship property, in property order. -/
theorem c9_edge_projection (rel : GRel) (fid tid : String) :
    (underscoreToSpace rel.type).data
        = rel.type.data.map (fun c => if c = '_' then ' ' else c) ∧
    (rel.props.lookup "commitment_mm" = none →
       (build_vis_edge rel fid tid).label = underscoreToSpace rel.type) ∧
    (∀ v, rel.props.lookup "commitment_mm" = some v →
       (build_vis_edge rel fid tid).label
         = underscoreToSpace rel.type ++ "\n$" ++ v ++ "MM") ∧
    (build_vis_edge rel fid tid).title
      = String.intercalate "<br>" (("<b>" ++ rel.type ++ "</b>") ::
          rel.props.map (fun kv => kv.1 ++ ": " ++ kv.2)) := by
  refine ⟨?_, ?_, ?_, rfl⟩
  · unfold underscoreToSpace
    apply List.map_congr_left
    intro c _
    by_cases hc : c = '_' <;> simp [hc]
  · intro h
    simp [build_vis_edge, h]
  · intro v h
    simp [build_vis_edge, h]

/-- C9, witness: the projection theorem evaluated at a `LENT_TO`
relationship carrying a commitment of 40. -/
theorem c9_edge_projection_witness :
    (build_vis_edge ⟨"LENT_TO", [("commitment_mm", "40")]⟩ "Lender:A" "Deal:D").label
      = underscoreToSpace "LENT_TO" ++ "\n$" ++ "40" ++ "MM" :=
  (c9_edge_projection ⟨"LENT_TO", [("commitment_mm", "40")]⟩ "Lender:A" "Deal:D").2.2.1
    "40" rfl

/-- C10: first projection wins — for every record list, the node map
entry stored under a NodeId is exactly the projection of the first node
in the encounter sequence carrying that id, both for the ego assembly
(before its single fading pass) and for the whole-graph assembly; later
rows referencing the same id leave the stored VisNode unchanged. -/
theorem c10_first_projection_wins :
    (∀ (isBorrower : Bool) (records : List EgoRecord) (k : String),
        (egoFold isBorrower records).nodesMap.lookup k
          = ((records.flatMap (recordNodes isBorrower)).find?
                (fun n => visId n == k)).map (fun n => (build_vis_node n).2)) ∧
    (∀ (records : List RowNRM) (k : String),
        (assembleWhole records).nodesMap.lookup k
          = ((encounterNodes records).find?
                (fun n => visId n == k)).map (fun n => (build_vis_node n).2)) := by
  constructor
  · intro isBorrower records k
    rw [egoFold_nodesMap, ensureList_lookup]
    rfl
  · intro records k
    rw [assembleWhole_nodesMap, ensureList_lookup]
    rfl

end GraphVis
